import Mathlib

/-! Formal model of the flagenv package: key transformers (keys.go), lookup
providers (lookup.go) and the flag loader (flagenv.go), together with theorems
about their specified behaviour.  Go strings are modelled through their
character lists; the `unicode.IsLetter`/`unicode.IsNumber` classification is
modelled by the ASCII alphanumeric predicate, on which every concrete input
appearing below agrees with the Go library. -/

namespace Flagenv

/-- Go `isAlnum` (keys.go): `unicode.IsLetter(r) || unicode.IsNumber(r)`,
modelled on the ASCII letter/digit classes. -/
def isAlnum (c : Char) : Bool := c.isAlpha || c.isDigit

/-- Shared core of the Go case converters `SnakeCase`, `DotCase` and
`KebabCase` (keys.go).  Each of those passes a closure to `strings.Map` that
keeps runes satisfying `keep`, replaces any other rune by `sep`, and returns
`-1` (which makes `strings.Map` drop the rune) when the previously examined
rune, tracked in the closure variable `last`, was already rewritten to `sep`.
The `last` variable is modelled by an `Option Char`, `none` standing for the
initial `-1`; note that the Go closure stores the reassigned rune (`sep`) in
`last` whenever the rune was not kept, which is mirrored by recursing with
`some sep` in both non-keep branches. -/
def caseMap (sep : Char) (keep : Char → Bool) : List Char → Option Char → List Char
  | [], _ => []
  | c :: cs, last =>
    if keep c then c :: caseMap sep keep cs (some c)
    else if last = some sep then caseMap sep keep cs (some sep)
    else sep :: caseMap sep keep cs (some sep)

/-- Go `SnakeCase` (keys.go): replace non-alphanumeric runes by `'_'`,
collapsing runs. -/
def SnakeCase (name : String) : String := ⟨caseMap '_' isAlnum name.data none⟩

/-- Go `DotCase` (keys.go): replace non-alphanumeric runes by `'.'`, keeping
hyphens, collapsing runs. -/
def DotCase (name : String) : String :=
  ⟨caseMap '.' (fun c => c == '-' || isAlnum c) name.data none⟩

/-- Go `KebabCase` (keys.go): replace non-alphanumeric runes by `'-'`,
collapsing runs. -/
def KebabCase (name : String) : String := ⟨caseMap '-' isAlnum name.data none⟩

/-- Go `WithPrefix` (keys.go): it short-circuits on the empty input key and
otherwise hands the concatenated key to the inner `KeyFunc`. -/
def WithPrefix (pfx : String) (keyfn : String → String) : String → String :=
  fun key => if key = "" then "" else keyfn (pfx ++ key)

/-- Specification-side reading of the case-converter contract, kept separate
from the source embedding `caseMap` above: collapse every adjacent pair of
separator characters into one, so that after mapping each non-kept rune to the
separator (see `specCase`) every maximal run of non-kept runes contributes
exactly one separator occurrence at its position. -/
def specCollapse (sep : Char) : List Char → List Char
  | [] => []
  | [a] => [a]
  | a :: b :: rest =>
    if a = sep ∧ b = sep then specCollapse sep (b :: rest)
    else a :: specCollapse sep (b :: rest)

/-- Specification-side case conversion: map every rune that is not kept to the
separator, then collapse adjacent separators. -/
def specCase (sep : Char) (keep : Char → Bool) (s : List Char) : List Char :=
  specCollapse sep (s.map fun c => if keep c then c else sep)

theorem specCollapse_cons_cons (sep a b : Char) (l : List Char)
    (h : ¬(a = sep ∧ b = sep)) :
    specCollapse sep (a :: b :: l) = a :: specCollapse sep (b :: l) := by
  simp [specCollapse, h]

theorem specCollapse_cons_of_ne (sep a : Char) (l : List Char) (h : a ≠ sep) :
    specCollapse sep (a :: l) = a :: specCollapse sep l := by
  cases l with
  | nil => rfl
  | cons b rest => exact specCollapse_cons_cons sep a b rest (fun hab => h hab.1)

theorem specCollapse_sep_sep (sep : Char) (l : List Char) :
    specCollapse sep (sep :: sep :: l) = specCollapse sep (sep :: l) := by
  simp [specCollapse]

theorem caseMap_cons_keep (sep : Char) (keep : Char → Bool) (c : Char)
    (cs : List Char) (last : Option Char) (h : keep c = true) :
    caseMap sep keep (c :: cs) last = c :: caseMap sep keep cs (some c) := by
  simp [caseMap, h]

theorem caseMap_cons_drop (sep : Char) (keep : Char → Bool) (c : Char)
    (cs : List Char) (h : keep c = false) :
    caseMap sep keep (c :: cs) (some sep) = caseMap sep keep cs (some sep) := by
  simp [caseMap, h]

theorem caseMap_cons_emit (sep : Char) (keep : Char → Bool) (c : Char)
    (cs : List Char) (last : Option Char) (h : keep c = false)
    (hlast : last ≠ some sep) :
    caseMap sep keep (c :: cs) last = sep :: caseMap sep keep cs (some sep) := by
  simp [caseMap, h, hlast]

/-- Refinement of the Go rune-mapping loop against the specification-side
collapse: the two agree from any closure state that is not the separator, and
the separator state corresponds to a pending separator in the input of
`specCollapse`. -/
theorem caseMap_eq_specCase (sep : Char) (keep : Char → Bool)
    (hkeep : ∀ c, keep c = true → c ≠ sep) (cs : List Char) :
    (∀ last : Option Char, last ≠ some sep →
        caseMap sep keep cs last = specCase sep keep cs) ∧
      sep :: caseMap sep keep cs (some sep) =
        specCollapse sep (sep :: cs.map fun c => if keep c then c else sep) := by
  induction cs with
  | nil => exact ⟨fun last _ => rfl, rfl⟩
  | cons c cs ih =>
    obtain ⟨ih1, ih2⟩ := ih
    by_cases hk : keep c = true
    · have hc : c ≠ sep := hkeep c hk
      have hsome : (some c : Option Char) ≠ some sep := by
        intro h; exact hc (Option.some.injEq _ _ ▸ h)
      have hin : caseMap sep keep cs (some c) =
          specCollapse sep (cs.map fun x => if keep x then x else sep) :=
        ih1 (some c) hsome
      constructor
      · intro last _
        rw [caseMap_cons_keep sep keep c cs last hk]
        unfold specCase
        rw [List.map_cons, if_pos hk, specCollapse_cons_of_ne sep c _ hc, hin]
      · rw [caseMap_cons_keep sep keep c cs (some sep) hk, List.map_cons,
          if_pos hk,
          specCollapse_cons_cons sep sep c _ (fun hab => hc hab.2),
          specCollapse_cons_of_ne sep c _ hc, hin]
    · have hkf : keep c = false := by simpa using hk
      constructor
      · intro last hlast
        rw [caseMap_cons_emit sep keep c cs last hkf hlast]
        unfold specCase
        rw [List.map_cons, if_neg (by simp [hkf])]
        exact ih2
      · rw [caseMap_cons_drop sep keep c cs hkf, List.map_cons,
          if_neg (by simp [hkf]), specCollapse_sep_sep]
        exact ih2

/-- Output of the Go rune-mapping loop never holds two adjacent separator
characters, and from the separator closure state it never starts with the
separator. -/
theorem caseMap_chain (sep : Char) (keep : Char → Bool)
    (hkeep : ∀ c, keep c = true → c ≠ sep) (cs : List Char) :
    (∀ hd, (caseMap sep keep cs (some sep)).head? = some hd → hd ≠ sep) ∧
      ∀ last, List.Chain' (fun a b => ¬(a = sep ∧ b = sep))
        (caseMap sep keep cs last) := by
  induction cs with
  | nil =>
    exact ⟨fun hd h => by simp [caseMap] at h, fun last => by simp [caseMap]⟩
  | cons c cs ih =>
    obtain ⟨ih1, ih2⟩ := ih
    by_cases hk : keep c = true
    · have hc : c ≠ sep := hkeep c hk
      constructor
      · intro hd h
        rw [caseMap_cons_keep sep keep c cs (some sep) hk] at h
        simp only [List.head?_cons, Option.some.injEq] at h
        exact h ▸ hc
      · intro last
        rw [caseMap_cons_keep sep keep c cs last hk, List.chain'_cons']
        exact ⟨fun y _ hab => hc hab.1, ih2 (some c)⟩
    · have hkf : keep c = false := by simpa using hk
      constructor
      · intro hd h
        rw [caseMap_cons_drop sep keep c cs hkf] at h
        exact ih1 hd h
      · intro last
        by_cases hlast : last = some sep
        · rw [hlast, caseMap_cons_drop sep keep c cs hkf]
          exact ih2 (some sep)
        · rw [caseMap_cons_emit sep keep c cs last hkf hlast, List.chain'_cons']
          refine ⟨fun y hy hab => ?_, ih2 (some sep)⟩
          exact ih1 y (by simpa using hy) hab.2

theorem keep_ne_snake (c : Char) (h : isAlnum c = true) : c ≠ '_' := by
  intro hc; subst hc; exact absurd h (by decide)

theorem keep_ne_dot (c : Char) (h : (c == '-' || isAlnum c) = true) : c ≠ '.' := by
  intro hc; subst hc; exact absurd h (by decide)

theorem keep_ne_kebab (c : Char) (h : isAlnum c = true) : c ≠ '-' := by
  intro hc; subst hc; exact absurd h (by decide)

/-- C3, counterexample: the claimed set of normative examples fails on the
code.  The rune-mapping loop of `SnakeCase` is driven by `strings.Map`, which
yields the empty string on the empty input, so `SnakeCase "" = ""` and not
`"_"`; the repository's own test table (`TestCaseFuncs`) likewise expects
`""`.  The conjunction of all four claimed equations is therefore false. -/
theorem snakeCase_examples_counterexample :
    ¬(SnakeCase "" = "_" ∧ SnakeCase "_______*****()" = "_" ∧
      SnakeCase " Foo**Bar Baz___" = "_Foo_Bar_Baz_" ∧
      SnakeCase "foo_bar-baz" = "foo_bar_baz") := by
  decide

/-- C3, amended: `SnakeCase` maps the empty input to the empty string (not to
a single separator), and satisfies the remaining three normative examples as
claimed. -/
theorem snakeCase_examples :
    SnakeCase "" = "" ∧ SnakeCase "_______*****()" = "_" ∧
      SnakeCase " Foo**Bar Baz___" = "_Foo_Bar_Baz_" ∧
      SnakeCase "foo_bar-baz" = "foo_bar_baz" := by
  decide

/-- C4: for every prefix string and inner key transformer, `WithPrefix`
returns the empty string on the empty input key — uniformly in the inner
transformer, hence without consulting it on the prefix alone — and on any
non-empty input returns the inner transformer applied to the prefixed key. -/
theorem withPrefix_spec (pfx : String) (keyfn : String → String) :
    WithPrefix pfx keyfn "" = "" ∧
      ∀ s : String, s ≠ "" → WithPrefix pfx keyfn s = keyfn (pfx ++ s) := by
  refine ⟨rfl, fun s hs => ?_⟩
  simp [WithPrefix, hs]

/-- Witness for `withPrefix_spec` at a concrete prefix, inner transformer and
non-empty input. -/
theorem withPrefix_spec_witness :
    WithPrefix "APP_" SnakeCase "" = "" ∧
      WithPrefix "APP_" SnakeCase "a b" = SnakeCase ("APP_" ++ "a b") :=
  ⟨(withPrefix_spec "APP_" SnakeCase).1,
    (withPrefix_spec "APP_" SnakeCase).2 "a b" (by decide)⟩

/-- C9: for every input string, none of `SnakeCase`, `DotCase` and `KebabCase`
ever emits two adjacent separator characters, and each converter equals the
specification-side conversion `specCase`, which maps every rune outside the
kept class (alphanumeric, plus hyphen for `DotCase`) to the separator and
collapses each maximal separator run to a single occurrence at its position. -/
theorem caseFuncs_separator_spec (s : String) :
    (List.Chain' (fun a b => ¬(a = '_' ∧ b = '_')) (SnakeCase s).data ∧
        (SnakeCase s).data = specCase '_' isAlnum s.data) ∧
      (List.Chain' (fun a b => ¬(a = '.' ∧ b = '.')) (DotCase s).data ∧
        (DotCase s).data = specCase '.' (fun c => c == '-' || isAlnum c) s.data) ∧
      (List.Chain' (fun a b => ¬(a = '-' ∧ b = '-')) (KebabCase s).data ∧
        (KebabCase s).data = specCase '-' isAlnum s.data) :=
  ⟨⟨(caseMap_chain '_' isAlnum keep_ne_snake s.data).2 none,
      (caseMap_eq_specCase '_' isAlnum keep_ne_snake s.data).1 none (by simp)⟩,
    ⟨(caseMap_chain '.' _ keep_ne_dot s.data).2 none,
      (caseMap_eq_specCase '.' _ keep_ne_dot s.data).1 none (by simp)⟩,
    ⟨(caseMap_chain '-' isAlnum keep_ne_kebab s.data).2 none,
      (caseMap_eq_specCase '-' isAlnum keep_ne_kebab s.data).1 none (by simp)⟩⟩

/-- Go `LookupFunc` (flagenv.go): queries a config store for a key, returning
zero or more values or an error.  The opaque Go `error` interface is modelled
by an arbitrary error type `ε`. -/
abbrev LookupFunc (ε : Type) := String → Except ε (List String)

/-- Constant `math.MaxInt32`, the exclusive upper bound of the indexed scan
loop in lookup.go. -/
def maxInt32 : Int := 2147483647

/-- Loop of Go `indexedLookup.lookup` (lookup.go): probe `{KEY}{SEP}{INDEX}`
for increasing indices while `i >= 0 && i < math.MaxInt32`, accumulating the
returned values, stopping at the first index yielding no values, and
propagating any error.  The guard bounds the loop to at most `maxInt32 - i`
iterations; the `fuel` argument realises that bound and is always supplied
large enough that the guard, never the fuel, stops the loop. -/
def indexedLoop {ε : Type} (inner : LookupFunc ε) (pfx : String) :
    Nat → Int → List String → Except ε (List String)
  | 0, _, values => .ok values
  | fuel + 1, i, values =>
    if 0 ≤ i ∧ i < maxInt32 then
      match inner (pfx ++ toString i) with
      | .error e => .error e
      | .ok v => if v = [] then .ok values
          else indexedLoop inner pfx fuel (i + 1) (values ++ v)
    else .ok values

/-- Go `WithIndexedLookup` composed with `indexedLookup.lookup` (lookup.go):
look the key up directly, return a non-empty result unchanged, otherwise run
the indexed scan starting at `base` with the empty accumulator. -/
def WithIndexedLookup {ε : Type} (inner : LookupFunc ε) (sep : String)
    (base : Int) : LookupFunc ε :=
  fun key =>
    match inner key with
    | .error e => .error e
    | .ok values =>
      if values = [] then
        indexedLoop inner (key ++ sep) (maxInt32 - base).toNat base values
      else .ok values

/-- Concatenation of an indexed family of value lists: `famJoin w n` joins
`w 0, …, w (n - 1)` in order. -/
def famJoin (w : Nat → List String) : Nat → List String
  | 0 => []
  | n + 1 => w 0 ++ famJoin (fun j => w (j + 1)) n

theorem indexedLoop_concat {ε : Type} (inner : LookupFunc ε) (pfx : String) :
    ∀ (k fuel : Nat) (i : Int) (acc : List String) (w : Nat → List String),
      0 ≤ i → i + (k + 1) < maxInt32 → k + 2 ≤ fuel →
      (∀ j : Nat, j ≤ k → inner (pfx ++ toString (i + j)) = .ok (w j)) →
      (∀ j : Nat, j ≤ k → w j ≠ []) →
      inner (pfx ++ toString (i + (k + 1 : Nat))) = .ok [] →
      indexedLoop inner pfx fuel i acc = .ok (acc ++ famJoin w (k + 1)) := by
  intro k
  induction k with
  | zero =>
    intro fuel i acc w hi hcap hfuel hval hne hgap
    cases fuel with
    | zero => omega
    | succ f1 =>
      cases f1 with
      | zero => omega
      | succ f2 =>
        have h0 : inner (pfx ++ toString i) = .ok (w 0) := by
          simpa using hval 0 (by omega)
        have h1 : inner (pfx ++ toString (i + 1)) = .ok [] := by
          simpa using hgap
        simp only [indexedLoop]
        rw [if_pos ⟨hi, by omega⟩]
        simp only [h0]
        rw [if_neg (hne 0 (by omega)),
          if_pos (⟨by omega, by omega⟩ : 0 ≤ i + 1 ∧ i + 1 < maxInt32)]
        simp only [h1]
        simp [famJoin]
  | succ k ih =>
    intro fuel i acc w hi hcap hfuel hval hne hgap
    cases fuel with
    | zero => omega
    | succ f =>
      have h0 : inner (pfx ++ toString i) = .ok (w 0) := by
        simpa using hval 0 (by omega)
      simp only [indexedLoop]
      rw [if_pos ⟨hi, by omega⟩]
      simp only [h0]
      rw [if_neg (hne 0 (by omega))]
      have hval' : ∀ j : Nat, j ≤ k →
          inner (pfx ++ toString (i + 1 + j)) = .ok (w (j + 1)) := by
        intro j hj
        have harg : i + ((j + 1 : Nat) : Int) = i + 1 + (j : Int) := by
          push_cast; ring
        have := hval (j + 1) (by omega)
        rw [harg] at this
        exact this
      have hne' : ∀ j : Nat, j ≤ k → w (j + 1) ≠ [] :=
        fun j hj => hne (j + 1) (by omega)
      have hgap' : inner (pfx ++ toString (i + 1 + (k + 1 : Nat))) = .ok [] := by
        have harg : i + ((k + 1 + 1 : Nat) : Int) = i + 1 + ((k + 1 : Nat) : Int) := by
          push_cast; ring
        rw [harg] at hgap
        exact hgap
      have := ih f (i + 1) (acc ++ w 0) (fun j => w (j + 1)) (by omega)
        (by push_cast at hcap ⊢; omega) (by omega) hval' hne' hgap'
      rw [this]
      simp [famJoin]

theorem indexedLoop_error {ε : Type} (inner : LookupFunc ε) (pfx : String)
    (e : ε) :
    ∀ (m fuel : Nat) (i : Int) (acc : List String),
      0 ≤ i → i + m < maxInt32 → m + 1 ≤ fuel →
      (∀ j : Nat, j < m →
        ∃ vj, inner (pfx ++ toString (i + j)) = .ok vj ∧ vj ≠ []) →
      inner (pfx ++ toString (i + m)) = .error e →
      indexedLoop inner pfx fuel i acc = .error e := by
  intro m
  induction m with
  | zero =>
    intro fuel i acc hi hcap hfuel hvals herr
    cases fuel with
    | zero => omega
    | succ f =>
      have h0 : inner (pfx ++ toString i) = .error e := by simpa using herr
      simp only [indexedLoop]
      rw [if_pos ⟨hi, by omega⟩]
      simp only [h0]
  | succ m ih =>
    intro fuel i acc hi hcap hfuel hvals herr
    cases fuel with
    | zero => omega
    | succ f =>
      obtain ⟨v0, hv0, hvne⟩ := hvals 0 (by omega)
      have h0 : inner (pfx ++ toString i) = .ok v0 := by simpa using hv0
      simp only [indexedLoop]
      rw [if_pos ⟨hi, by omega⟩]
      simp only [h0]
      rw [if_neg hvne]
      have hvals' : ∀ j : Nat, j < m →
          ∃ vj, inner (pfx ++ toString (i + 1 + j)) = .ok vj ∧ vj ≠ [] := by
        intro j hj
        have harg : i + ((j + 1 : Nat) : Int) = i + 1 + (j : Int) := by
          push_cast; ring
        obtain ⟨vj, hj1, hj2⟩ := hvals (j + 1) (by omega)
        exact ⟨vj, by rw [harg] at hj1; exact hj1, hj2⟩
      have herr' : inner (pfx ++ toString (i + 1 + (m : Nat))) = .error e := by
        have harg : i + ((m + 1 : Nat) : Int) = i + 1 + (m : Int) := by
          push_cast; ring
        rw [harg] at herr
        exact herr
      exact ih f (i + 1) (acc ++ v0) (by omega)
        (by push_cast at hcap ⊢; omega) (by omega) hvals' herr'

/-- C5: behaviour of the indexed fallback lookup.  A non-empty direct result
is returned unchanged; a direct-lookup error propagates; when the direct
lookup is empty and the suffixed keys hold values at indices `base … base + k`
with a gap at `base + k + 1`, the result is the concatenation of those values
in index order — the hypotheses constrain the inner lookup only at the direct
key and at indices up to the gap, so keys past the first gap can never
influence (hence are never consulted for) the result; and an inner-lookup
error at any index before a gap propagates immediately.  The bounds
`0 ≤ base` and `… < maxInt32` are the loop's own guard `i >= 0 && i <
math.MaxInt32`; a negative base is covered separately. -/
theorem withIndexedLookup_spec {ε : Type} (inner : LookupFunc ε) (sep : String)
    (base : Int) (key : String) :
    (∀ vs, inner key = .ok vs → vs ≠ [] →
        WithIndexedLookup inner sep base key = .ok vs) ∧
      (∀ e, inner key = .error e →
        WithIndexedLookup inner sep base key = .error e) ∧
      (∀ (k : Nat) (w : Nat → List String),
        inner key = .ok [] → 0 ≤ base → base + (k + 1) < maxInt32 →
        (∀ j : Nat, j ≤ k →
          inner ((key ++ sep) ++ toString (base + j)) = .ok (w j)) →
        (∀ j : Nat, j ≤ k → w j ≠ []) →
        inner ((key ++ sep) ++ toString (base + (k + 1 : Nat))) = .ok [] →
        WithIndexedLookup inner sep base key = .ok (famJoin w (k + 1))) ∧
      (∀ (m : Nat) (e : ε),
        inner key = .ok [] → 0 ≤ base → base + m < maxInt32 →
        (∀ j : Nat, j < m →
          ∃ vj, inner ((key ++ sep) ++ toString (base + j)) = .ok vj ∧ vj ≠ []) →
        inner ((key ++ sep) ++ toString (base + m)) = .error e →
        WithIndexedLookup inner sep base key = .error e) := by
  refine ⟨fun vs hvs hne => ?_, fun e he => ?_, fun k w h0 hb hcap hval hne hgap => ?_,
    fun m e h0 hb hcap hvals herr => ?_⟩
  · unfold WithIndexedLookup
    simp only [hvs]
    rw [if_neg hne]
  · unfold WithIndexedLookup
    simp only [he]
  · unfold WithIndexedLookup
    simp only [h0]
    rw [if_pos trivial]
    have := indexedLoop_concat inner (key ++ sep) k (maxInt32 - base).toNat base
      [] w hb hcap (by omega) hval hne hgap
    rw [this]
    simp
  · unfold WithIndexedLookup
    simp only [h0]
    rw [if_pos trivial]
    exact indexedLoop_error inner (key ++ sep) e m (maxInt32 - base).toNat base
      [] hb hcap (by omega) hvals herr

/-- C10: a negative base disables the indexed fallback entirely.  The loop
guard `i >= 0` fails before the first probe, so no suffixed key is ever
consulted, and the composite lookup returns exactly the direct lookup's
answer — in particular an empty direct result stays empty. -/
theorem negBase_disables_scan {ε : Type} (inner : LookupFunc ε) (sep : String)
    (base : Int) (key : String) (hneg : base < 0) :
    WithIndexedLookup inner sep base key = inner key := by
  unfold WithIndexedLookup
  cases hk : inner key with
  | error e => rfl
  | ok values =>
    dsimp only
    by_cases hv : values = []
    · subst hv
      rw [if_pos rfl]
      cases hf : (maxInt32 - base).toNat with
      | zero => rfl
      | succ f =>
        simp only [indexedLoop]
        rw [if_neg (show ¬(0 ≤ base ∧ base < maxInt32) by omega)]
    · rw [if_neg hv]

/-- Witness for `withIndexedLookup_spec`: with values at suffixed indices 1
and 2 and a gap at 3, the scan concatenates the values in index order. -/
theorem withIndexedLookup_spec_witness :
    WithIndexedLookup (fun k : String =>
        if k = "K" then (.ok [] : Except String (List String))
        else if k = "K_1" then .ok ["a"]
        else if k = "K_2" then .ok ["b", "c"]
        else if k = "K_3" then .ok []
        else .error "boom") "_" 1 "K" = .ok ["a", "b", "c"] := by
  have h := (withIndexedLookup_spec (fun k : String =>
        if k = "K" then (.ok [] : Except String (List String))
        else if k = "K_1" then .ok ["a"]
        else if k = "K_2" then .ok ["b", "c"]
        else if k = "K_3" then .ok []
        else .error "boom") "_" 1 "K").2.2.1 1
      (fun j => if j = 0 then ["a"] else ["b", "c"])
      rfl (by decide) (by decide)
      (by intro j hj; interval_cases j <;> rfl)
      (by intro j hj; interval_cases j <;> decide)
      rfl
  rw [h]
  rfl

/-- Witness for `negBase_disables_scan`: with base `-1` a populated suffixed
key `A-1` is ignored and the empty direct result is returned. -/
theorem negBase_disables_scan_witness :
    WithIndexedLookup (fun k : String =>
        if k = "A-1" then (.ok ["x"] : Except String (List String)) else .ok [])
      "-" (-1) "A" = .ok [] :=
  (negBase_disables_scan
    (fun k : String =>
      if k = "A-1" then (.ok ["x"] : Except String (List String)) else .ok [])
    "-" (-1) "A" (by decide)).trans rfl

/-- Go `flag.Flag` together with its `flag.Value`, seen through the interface
the Loader consumes: the flag's name; the result of the optional
`SkipMerge() bool` capability probe (`false` when the value does not
implement it, as in Go `shouldSkip`); the parse behaviour of the value's
`Set` method (`parse v = some e` exactly when `Set(v)` would fail with error
`e`); and the ordered record `assigned` of the strings successfully passed to
`Set`, which is the value storage the Loader mutates. -/
structure Flag (ε : Type) where
  name : String
  skipMerge : Bool
  parse : String → Option ε
  assigned : List String

/-- Go `flag.FlagSet`, seen through the Loader's boundary: `formal`
enumerates the declared flags in `VisitAll` order, `actual` holds the names
of the flags the caller explicitly set (what `Visit` enumerates). -/
structure FlagSet (ε : Type) where
  formal : List (Flag ε)
  actual : List String

/-- Go `Loader` (flagenv.go): Key and Lookup function fields; a nil function
field is `none`. -/
structure Loader (ε : Type) where
  Key : Option (String → String)
  Lookup : Option (LookupFunc ε)

/-- Modelled from the spec: the `Identity` key transformer that `setFlag`
falls back to when no Key function is configured is referenced by flagenv.go
but not defined in the provided source files; the spec defines it as
returning the input unchanged ("Identity: returns the input unchanged."). -/
def Identity (name : String) : String := name

/-- Errors returned by the Loader, mirroring flagenv.go: `errNoLookup`; the
"flag not found" error of `SetOne`; and the two `fmt.Errorf` wrappers of
`setFlag`, which attach the offending flag's name and derived key to a
lookup error ("error looking up %s config with key %s") and to a Set error
("unable to load %s config from key %s"). -/
inductive LoadErr (ε : Type) where
  | noLookup
  | notFound (name : String)
  | lookupErr (name key : String) (e : ε)
  | setErr (name key : String) (e : ε)
deriving DecidableEq

/-- Go `shouldSkip` (flagenv.go): result of probing the flag value for the
`SkipMerge() bool` capability. -/
def shouldSkip {ε : Type} (fv : Flag ε) : Bool := fv.skipMerge

/-- Key-function selection inside Go `setFlag`: `keyfn := l.Key`, replaced by
`Identity` when nil, applied to the flag's name. -/
def derivedKey {ε : Type} (l : Loader ε) (name : String) : String :=
  (l.Key.getD Identity) name

/-- Loop of Go `setFlag` over the looked-up values: apply each value to the
flag's `Set` method in order, stopping at the first failing value; values
already applied stay applied. -/
def setValues {ε : Type} (fv : Flag ε) : List String → Flag ε × Option ε
  | [] => (fv, none)
  | v :: vs =>
    match fv.parse v with
    | some e => (fv, some e)
    | none => setValues { fv with assigned := fv.assigned ++ [v] } vs

/-- Go `Loader.setFlag` (flagenv.go): fail when no Lookup function is
configured; derive the key and skip silently when it is empty; propagate a
lookup error wrapped with the flag name and key; otherwise apply every
looked-up value in order, wrapping a Set failure with the flag name and
key. -/
def setFlag {ε : Type} (l : Loader ε) (fv : Flag ε) :
    Flag ε × Option (LoadErr ε) :=
  match l.Lookup with
  | none => (fv, some .noLookup)
  | some lk =>
    let key := derivedKey l fv.name
    if key = "" then (fv, none)
    else
      match lk key with
      | .error e => (fv, some (.lookupErr fv.name key e))
      | .ok values =>
        match setValues fv values with
        | (fv', none) => (fv', none)
        | (fv', some e) => (fv', some (.setErr fv.name key e))

/-- Visited predicate of Go `setFlags`: constantly false unless merging, in
which case it tests membership in the set of names collected from
`f.Visit`. -/
def visitedBy {ε : Type} (fs : FlagSet ε) (merge : Bool) (fv : Flag ε) : Bool :=
  merge && fs.actual.contains fv.name

/-- Body of Go `setFlags` (flagenv.go): `f.VisitAll` runs the closure over
every declared flag; the closure returns immediately once an error was
recorded, for visited flags and for flags opting out via `shouldSkip`, and
otherwise runs `setFlag`, recording its error (the guard guarantees no error
was recorded yet, so `ferr != nil && err == nil` collapses to adopting
`setFlag`'s result). -/
def setFlagsAux {ε : Type} (l : Loader ε) (vis : Flag ε → Bool) :
    List (Flag ε) → Option (LoadErr ε) → List (Flag ε) × Option (LoadErr ε)
  | [], err => ([], err)
  | fv :: rest, err =>
    if err.isSome || vis fv || shouldSkip fv then
      (fv :: (setFlagsAux l vis rest err).1, (setFlagsAux l vis rest err).2)
    else
      ((setFlag l fv).1 :: (setFlagsAux l vis rest (setFlag l fv).2).1,
        (setFlagsAux l vis rest (setFlag l fv).2).2)

/-- Go `Loader.setFlags` (flagenv.go). -/
def setFlags {ε : Type} (l : Loader ε) (fs : FlagSet ε) (merge : Bool) :
    FlagSet ε × Option (LoadErr ε) :=
  let r := setFlagsAux l (visitedBy fs merge) fs.formal none
  ({ fs with formal := r.1 }, r.2)

/-- Go `Loader.SetAll` (flagenv.go): `setFlags` with `merge = false`. -/
def SetAll {ε : Type} (l : Loader ε) (fs : FlagSet ε) :
    FlagSet ε × Option (LoadErr ε) :=
  setFlags l fs false

/-- Go `Loader.SetMissing` (flagenv.go): `setFlags` with `merge = true`. -/
def SetMissing {ε : Type} (l : Loader ε) (fs : FlagSet ε) :
    FlagSet ε × Option (LoadErr ε) :=
  setFlags l fs true

/-- Go `Loader.SetOne` (flagenv.go): look the named flag up in the set,
failing when it is not declared, and run `setFlag` on it — without consulting
`shouldSkip` or the visited set. -/
def SetOne {ε : Type} (l : Loader ε) (fs : FlagSet ε) (name : String) :
    FlagSet ε × Option (LoadErr ε) :=
  match fs.formal.find? (fun fv => fv.name == name) with
  | none => (fs, some (.notFound name))
  | some fv =>
    let s := setFlag l fv
    ({ fs with formal := fs.formal.map fun g => if g.name == name then s.1 else g },
      s.2)

/-- Per-flag outcome of one `setFlags` pass when no earlier error interferes:
skipped flags stay unchanged, all others receive `setFlag`'s result. -/
def processFlag {ε : Type} (l : Loader ε) (vis : Flag ε → Bool) (fv : Flag ε) :
    Flag ε :=
  if vis fv || shouldSkip fv then fv else (setFlag l fv).1

/-- Condition of the spec's assignment invariant for one flag: the derived
key is non-empty, the configured lookup yields at least one value for it, the
flag does not opt out via `SkipMerge`, and it is not excluded as already
visited (which under `SetAll` never excludes anything). -/
def assignCond {ε : Type} (l : Loader ε) (fs : FlagSet ε) (merge : Bool)
    (fv : Flag ε) : Prop :=
  derivedKey l fv.name ≠ "" ∧
    (∃ lk vs, l.Lookup = some lk ∧ lk (derivedKey l fv.name) = .ok vs ∧ vs ≠ []) ∧
    shouldSkip fv = false ∧ visitedBy fs merge fv = false

theorem setValues_none {ε : Type} :
    ∀ (vs : List String) (fv fv' : Flag ε), setValues fv vs = (fv', none) →
      fv'.assigned = fv.assigned ++ vs := by
  intro vs
  induction vs with
  | nil =>
    intro fv fv' h
    simp only [setValues, Prod.mk.injEq] at h
    rw [← h.1]
    simp
  | cons v vs ih =>
    intro fv fv' h
    cases hp : fv.parse v with
    | some e => simp [setValues, hp] at h
    | none =>
      simp only [setValues, hp] at h
      have := ih _ fv' h
      simpa using this

theorem setValues_ok {ε : Type} :
    ∀ (vs : List String) (fv : Flag ε), (∀ v ∈ vs, fv.parse v = none) →
      setValues fv vs = ({ fv with assigned := fv.assigned ++ vs }, none) := by
  intro vs
  induction vs with
  | nil => intro fv _; simp [setValues]
  | cons v vs ih =>
    intro fv hall
    have hv : fv.parse v = none := hall v (by simp)
    simp only [setValues, hv]
    rw [ih { fv with assigned := fv.assigned ++ [v] }
      (fun u hu => hall u (by simp [hu]))]
    simp

theorem setValues_partial {ε : Type} :
    ∀ (good : List String) (fv : Flag ε) (bad : String) (rest : List String)
      (e : ε), (∀ v ∈ good, fv.parse v = none) → fv.parse bad = some e →
      setValues fv (good ++ bad :: rest) =
        ({ fv with assigned := fv.assigned ++ good }, some e) := by
  intro good
  induction good with
  | nil =>
    intro fv bad rest e _ hbad
    simp [setValues, hbad]
  | cons v good ih =>
    intro fv bad rest e hall hbad
    have hv : fv.parse v = none := hall v (by simp)
    simp only [List.cons_append, setValues, hv, List.append_eq]
    rw [ih { fv with assigned := fv.assigned ++ [v] } bad rest e
      (fun u hu => hall u (by simp [hu])) hbad]
    simp

theorem setFlag_noLookup {ε : Type} (l : Loader ε) (fv : Flag ε)
    (hL : l.Lookup = none) : setFlag l fv = (fv, some .noLookup) := by
  simp [setFlag, hL]

theorem setFlag_applies {ε : Type} (l : Loader ε) (fv : Flag ε)
    (lk : LookupFunc ε) (vs : List String) (hL : l.Lookup = some lk)
    (hk : derivedKey l fv.name ≠ "") (hlk : lk (derivedKey l fv.name) = .ok vs)
    (hok : ∀ v ∈ vs, fv.parse v = none) :
    setFlag l fv = ({ fv with assigned := fv.assigned ++ vs }, none) := by
  simp [setFlag, hL, hk, hlk, setValues_ok vs fv hok]

theorem setFlag_skipKey {ε : Type} (l : Loader ε) (fv : Flag ε)
    (lk : LookupFunc ε) (hL : l.Lookup = some lk)
    (hk : derivedKey l fv.name = "") : setFlag l fv = (fv, none) := by
  simp [setFlag, hL, hk]

theorem setFlag_lookupErr {ε : Type} (l : Loader ε) (fv : Flag ε)
    (lk : LookupFunc ε) (e : ε) (hL : l.Lookup = some lk)
    (hk : derivedKey l fv.name ≠ "")
    (hlk : lk (derivedKey l fv.name) = .error e) :
    setFlag l fv = (fv, some (.lookupErr fv.name (derivedKey l fv.name) e)) := by
  simp [setFlag, hL, hk, hlk]

theorem setFlag_setErr {ε : Type} (l : Loader ε) (fv fv2 : Flag ε)
    (lk : LookupFunc ε) (vs : List String) (e : ε) (hL : l.Lookup = some lk)
    (hk : derivedKey l fv.name ≠ "")
    (hlk : lk (derivedKey l fv.name) = .ok vs)
    (hsv : setValues fv vs = (fv2, some e)) :
    setFlag l fv = (fv2, some (.setErr fv.name (derivedKey l fv.name) e)) := by
  simp [setFlag, hL, hk, hlk, hsv]

theorem setFlag_setOk {ε : Type} (l : Loader ε) (fv fv2 : Flag ε)
    (lk : LookupFunc ε) (vs : List String) (hL : l.Lookup = some lk)
    (hk : derivedKey l fv.name ≠ "")
    (hlk : lk (derivedKey l fv.name) = .ok vs)
    (hsv : setValues fv vs = (fv2, none)) : setFlag l fv = (fv2, none) := by
  simp [setFlag, hL, hk, hlk, hsv]

theorem setFlag_err_shape {ε : Type} (l : Loader ε) (fv fv' : Flag ε)
    (er : LoadErr ε) (h : setFlag l fv = (fv', some er)) :
    er = .noLookup ∨ ∃ e0 : ε,
      er = .lookupErr fv.name (derivedKey l fv.name) e0 ∨
      er = .setErr fv.name (derivedKey l fv.name) e0 := by
  cases hL : l.Lookup with
  | none =>
    rw [setFlag_noLookup l fv hL] at h
    injection h with h1 h2
    injection h2 with h2
    exact Or.inl h2.symm
  | some lk =>
    by_cases hk : derivedKey l fv.name = ""
    · rw [setFlag_skipKey l fv lk hL hk] at h
      injection h with h1 h2
      exact absurd h2 (by simp)
    · cases hlk : lk (derivedKey l fv.name) with
      | error e =>
        rw [setFlag_lookupErr l fv lk e hL hk hlk] at h
        injection h with h1 h2
        injection h2 with h2
        exact Or.inr ⟨e, Or.inl h2.symm⟩
      | ok values =>
        rcases hsv : setValues fv values with ⟨fv2, o⟩
        cases o with
        | none =>
          rw [setFlag_setOk l fv fv2 lk values hL hk hlk hsv] at h
          injection h with h1 h2
          exact absurd h2 (by simp)
        | some e =>
          rw [setFlag_setErr l fv fv2 lk values e hL hk hlk hsv] at h
          injection h with h1 h2
          injection h2 with h2
          exact Or.inr ⟨e, Or.inr h2.symm⟩

theorem setFlag_none_assigned {ε : Type} (l : Loader ε) (fv fv' : Flag ε)
    (h : setFlag l fv = (fv', none)) :
    fv'.assigned ≠ fv.assigned ↔
      (derivedKey l fv.name ≠ "" ∧
        ∃ lk vs, l.Lookup = some lk ∧ lk (derivedKey l fv.name) = .ok vs ∧
          vs ≠ []) := by
  cases hL : l.Lookup with
  | none =>
    rw [setFlag_noLookup l fv hL] at h
    injection h with h1 h2
    exact absurd h2 (by simp)
  | some lk =>
    by_cases hk : derivedKey l fv.name = ""
    · rw [setFlag_skipKey l fv lk hL hk] at h
      injection h with h1 h2
      rw [← h1]
      simp [hk]
    · cases hlk : lk (derivedKey l fv.name) with
      | error e =>
        rw [setFlag_lookupErr l fv lk e hL hk hlk] at h
        injection h with h1 h2
        exact absurd h2 (by simp)
      | ok vs =>
        rcases hsv : setValues fv vs with ⟨fv2, o⟩
        cases o with
        | some e =>
          rw [setFlag_setErr l fv fv2 lk vs e hL hk hlk hsv] at h
          injection h with h1 h2
          exact absurd h2 (by simp)
        | none =>
          rw [setFlag_setOk l fv fv2 lk vs hL hk hlk hsv] at h
          injection h with h1 h2
          cases h1
          have hasg : fv'.assigned = fv.assigned ++ vs :=
            setValues_none vs fv fv' hsv
          constructor
          · intro hne
            refine ⟨hk, lk, vs, rfl, hlk, fun hnil => hne ?_⟩
            rw [hasg, hnil]
            simp
          · rintro ⟨-, lk', vs', hL', hlk', hvs'⟩
            have hlkeq : lk = lk' := by injection hL'
            subst hlkeq
            have hvseq : vs = vs' := by
              have := hlk.symm.trans hlk'
              injection this
            subst hvseq
            rw [hasg]
            intro heq
            have hlen := congrArg List.length heq
            simp at hlen
            exact hvs' hlen

theorem setFlagsAux_cons_skip {ε : Type} (l : Loader ε) (vis : Flag ε → Bool)
    (fv : Flag ε) (rest : List (Flag ε)) (err : Option (LoadErr ε))
    (h : (vis fv || shouldSkip fv) = true) :
    setFlagsAux l vis (fv :: rest) err =
      (fv :: (setFlagsAux l vis rest err).1, (setFlagsAux l vis rest err).2) := by
  have hguard : (err.isSome || vis fv || shouldSkip fv) = true := by
    simp [Bool.or_assoc, h]
  simp only [setFlagsAux]
  rw [if_pos hguard]

theorem setFlagsAux_cons_run {ε : Type} (l : Loader ε) (vis : Flag ε → Bool)
    (fv : Flag ε) (rest : List (Flag ε))
    (h : (vis fv || shouldSkip fv) = false) :
    setFlagsAux l vis (fv :: rest) none =
      ((setFlag l fv).1 :: (setFlagsAux l vis rest (setFlag l fv).2).1,
        (setFlagsAux l vis rest (setFlag l fv).2).2) := by
  have hguard : ¬(((none : Option (LoadErr ε)).isSome ||
      vis fv || shouldSkip fv) = true) := by
    simp [Bool.or_assoc, h]
  simp only [setFlagsAux]
  rw [if_neg hguard]

theorem setFlagsAux_error {ε : Type} (l : Loader ε) (vis : Flag ε → Bool) :
    ∀ (flags : List (Flag ε)) (e : LoadErr ε),
      setFlagsAux l vis flags (some e) = (flags, some e) := by
  intro flags e
  induction flags with
  | nil => rfl
  | cons fv rest ih =>
    have hguard : (((some e : Option (LoadErr ε)).isSome ||
        vis fv || shouldSkip fv) = true) := by simp
    simp only [setFlagsAux]
    rw [if_pos hguard, ih]

theorem setFlags_def {ε : Type} (l : Loader ε) (fs : FlagSet ε) (merge : Bool) :
    setFlags l fs merge =
      ({ fs with formal := (setFlagsAux l (visitedBy fs merge) fs.formal none).1 },
        (setFlagsAux l (visitedBy fs merge) fs.formal none).2) := rfl

theorem setFlagsAux_getD_skipped {ε : Type} (l : Loader ε) (vis : Flag ε → Bool) :
    ∀ (flags : List (Flag ε)) (err : Option (LoadErr ε)) (i : Nat) (d : Flag ε),
      (vis (flags.getD i d) || shouldSkip (flags.getD i d)) = true →
      (setFlagsAux l vis flags err).1.getD i d = flags.getD i d := by
  intro flags
  induction flags with
  | nil => intro err i d _; rfl
  | cons fv rest ih =>
    intro err i d h
    by_cases hskip : (vis fv || shouldSkip fv) = true
    · rw [setFlagsAux_cons_skip l vis fv rest err hskip]
      cases i with
      | zero => rfl
      | succ i =>
        simp only [List.getD_cons_succ] at h ⊢
        exact ih err i d h
    · have hf : (vis fv || shouldSkip fv) = false := by simpa using hskip
      cases i with
      | zero =>
        simp only [List.getD_cons_zero] at h
        exact absurd h (by simp [hf])
      | succ i =>
        cases err with
        | some e =>
          rw [setFlagsAux_error l vis (fv :: rest) e]
        | none =>
          rw [setFlagsAux_cons_run l vis fv rest hf]
          simp only [List.getD_cons_succ] at h ⊢
          exact ih (setFlag l fv).2 i d h

theorem setFlagsAux_append_ok {ε : Type} (l : Loader ε) (vis : Flag ε → Bool) :
    ∀ (pre rest : List (Flag ε)),
      (∀ g ∈ pre, (vis g || shouldSkip g) = true ∨ (setFlag l g).2 = none) →
      setFlagsAux l vis (pre ++ rest) none =
        (pre.map (processFlag l vis) ++ (setFlagsAux l vis rest none).1,
          (setFlagsAux l vis rest none).2) := by
  intro pre
  induction pre with
  | nil => intro rest _; simp
  | cons g pre ih =>
    intro rest hall
    by_cases hskip : (vis g || shouldSkip g) = true
    · rw [List.cons_append, setFlagsAux_cons_skip l vis g (pre ++ rest) none hskip,
        ih rest (fun u hu => hall u (by simp [hu]))]
      simp [processFlag, hskip]
    · have hf : (vis g || shouldSkip g) = false := by simpa using hskip
      have hsf : (setFlag l g).2 = none := (hall g (by simp)).resolve_left hskip
      rw [List.cons_append, setFlagsAux_cons_run l vis g (pre ++ rest) hf, hsf,
        ih rest (fun u hu => hall u (by simp [hu]))]
      simp [processFlag, hf]

theorem setFlagsAux_none_char {ε : Type} (l : Loader ε) (vis : Flag ε → Bool) :
    ∀ flags : List (Flag ε), (setFlagsAux l vis flags none).2 = none →
      (setFlagsAux l vis flags none).1 = flags.map (processFlag l vis) ∧
        ∀ g ∈ flags, (vis g || shouldSkip g) = false → (setFlag l g).2 = none := by
  intro flags
  induction flags with
  | nil => intro _; exact ⟨rfl, by simp⟩
  | cons fv rest ih =>
    intro h
    by_cases hskip : (vis fv || shouldSkip fv) = true
    · rw [setFlagsAux_cons_skip l vis fv rest none hskip] at h ⊢
      obtain ⟨h1, h2⟩ := ih h
      constructor
      · simp only [List.map_cons]
        rw [h1]
        simp [processFlag, hskip]
      · intro g hg hgf
        rcases List.mem_cons.mp hg with rfl | hgr
        · exact absurd hskip (by simp [hgf])
        · exact h2 g hgr hgf
    · have hf : (vis fv || shouldSkip fv) = false := by simpa using hskip
      rw [setFlagsAux_cons_run l vis fv rest hf] at h ⊢
      cases hsf : (setFlag l fv).2 with
      | some e =>
        rw [hsf, setFlagsAux_error l vis rest e] at h
        exact absurd h (by simp)
      | none =>
        rw [hsf] at h
        obtain ⟨h1, h2⟩ := ih h
        constructor
        · simp only [List.map_cons]
          rw [h1]
          simp [processFlag, hf]
        · intro g hg hgf
          rcases List.mem_cons.mp hg with rfl | hgr
          · exact hsf
          · exact h2 g hgr hgf

theorem setFlagsAux_noLookup_preserves {ε : Type} (l : Loader ε)
    (vis : Flag ε → Bool) (hL : l.Lookup = none) :
    ∀ (flags : List (Flag ε)) (err : Option (LoadErr ε)),
      (setFlagsAux l vis flags err).1 = flags := by
  intro flags
  induction flags with
  | nil => intro err; rfl
  | cons fv rest ih =>
    intro err
    by_cases hg : (err.isSome || vis fv || shouldSkip fv) = true
    · simp only [setFlagsAux]
      rw [if_pos hg]
      simp [ih err]
    · simp only [setFlagsAux]
      rw [if_neg hg, setFlag_noLookup l fv hL]
      simp [ih]

theorem setFlagsAux_noLookup {ε : Type} (l : Loader ε) (vis : Flag ε → Bool)
    (hL : l.Lookup = none) :
    ∀ flags : List (Flag ε), (∃ g ∈ flags, (vis g || shouldSkip g) = false) →
      setFlagsAux l vis flags none = (flags, some .noLookup) := by
  intro flags
  induction flags with
  | nil => rintro ⟨g, hg, -⟩; simp at hg
  | cons fv rest ih =>
    rintro ⟨g, hg, hgf⟩
    by_cases hskip : (vis fv || shouldSkip fv) = true
    · have hgr : g ∈ rest := by
        rcases List.mem_cons.mp hg with rfl | hr
        · exact absurd hskip (by simp [hgf])
        · exact hr
      rw [setFlagsAux_cons_skip l vis fv rest none hskip, ih ⟨g, hgr, hgf⟩]
    · have hf : (vis fv || shouldSkip fv) = false := by simpa using hskip
      rw [setFlagsAux_cons_run l vis fv rest hf, setFlag_noLookup l fv hL]
      simp [setFlagsAux_error l vis rest LoadErr.noLookup]

theorem getD_append_length {α : Type} (l1 : List α) (x : α) (l2 : List α)
    (d : α) : (l1 ++ x :: l2).getD l1.length d = x := by
  induction l1 with
  | nil => rfl
  | cons a l1 ih => simpa using ih

/-- Flag used by the C1 counterexample: its `Set` method rejects the value
`"bad"`. -/
def c1Flag : Flag String :=
  { name := "A", skipMerge := false,
    parse := fun v => if v = "bad" then some "uhoh" else none, assigned := [] }

/-- Loader used by the C1 counterexample: the lookup yields the single value
`"bad"` for key `"A"`. -/
def c1Loader : Loader String :=
  { Key := none, Lookup := some fun k => if k = "A" then .ok ["bad"] else .ok [] }

/-- Flag set used by the C1 counterexample. -/
def c1FS : FlagSet String := { formal := [c1Flag], actual := [] }

/-- C1, counterexample: the claimed equivalence fails without an
error-freedom assumption.  Here conditions (a)–(c) hold for flag `A` — its
derived key is `"A"`, the lookup yields the single value `"bad"`, and the
flag is neither exempt nor already set — yet the bulk operation assigns no
value to it, because `"bad"` fails to parse and the call aborts with a Set
error. -/
theorem assign_iff_counterexample :
    ¬ ((((SetAll c1Loader c1FS).1.formal.getD 0 c1Flag).assigned ≠
        c1Flag.assigned) ↔ assignCond c1Loader c1FS false c1Flag) := by
  intro hiff
  have hcond : assignCond c1Loader c1FS false c1Flag :=
    ⟨by decide, ⟨(fun k => if k = "A" then .ok ["bad"] else .ok []), ["bad"],
      rfl, rfl, by simp⟩, rfl, rfl⟩
  exact hiff.mpr hcond rfl

/-- C1, amended: provided the bulk operation (`setFlags` under either policy,
hence both `SetAll` and `SetMissing`) returns no error, every declared flag's
outcome is `processFlag`, and a flag is assigned a value — its record of
successful `Set` calls changes — if and only if its derived key is
non-empty, the configured lookup yields at least one value for that key, the
flag is not exempt via the `SkipMerge` capability, and it is not excluded as
already explicitly set under the fill-missing policy. -/
theorem assign_iff_of_no_error {ε : Type} (l : Loader ε) (fs : FlagSet ε)
    (merge : Bool) (hnone : (setFlags l fs merge).2 = none) :
    (setFlags l fs merge).1.formal =
        fs.formal.map (processFlag l (visitedBy fs merge)) ∧
      ∀ fv ∈ fs.formal,
        ((processFlag l (visitedBy fs merge) fv).assigned ≠ fv.assigned ↔
          assignCond l fs merge fv) := by
  have hnone' : (setFlagsAux l (visitedBy fs merge) fs.formal none).2 = none :=
    hnone
  obtain ⟨h1, h2⟩ := setFlagsAux_none_char l (visitedBy fs merge) fs.formal
    hnone'
  refine ⟨h1, ?_⟩
  intro fv hm
  by_cases hskip : (visitedBy fs merge fv || shouldSkip fv) = true
  · have hpf : processFlag l (visitedBy fs merge) fv = fv := by
      simp [processFlag, hskip]
    rw [hpf]
    refine iff_of_false (by simp) ?_
    rintro ⟨-, -, hsk, hvb⟩
    rw [hvb, hsk] at hskip
    simp at hskip
  · have hf : (visitedBy fs merge fv || shouldSkip fv) = false := by
      simpa using hskip
    have hsf : (setFlag l fv).2 = none := h2 fv hm hf
    have hpf : processFlag l (visitedBy fs merge) fv = (setFlag l fv).1 := by
      simp [processFlag, hf]
    have hpair : setFlag l fv = ((setFlag l fv).1, none) := by rw [← hsf]
    rw [hpf, setFlag_none_assigned l fv (setFlag l fv).1 hpair]
    unfold assignCond
    have hvv : visitedBy fs merge fv = false := by
      rcases Bool.or_eq_false_iff.mp hf with ⟨h', -⟩
      exact h'
    have hss : shouldSkip fv = false := by
      rcases Bool.or_eq_false_iff.mp hf with ⟨-, h'⟩
      exact h'
    simp [hss, hvv]

/-- Flag used by the C1 witness: its `Set` method accepts everything. -/
def c1OkFlag : Flag String :=
  { name := "B", skipMerge := false, parse := fun _ => none, assigned := [] }

/-- Loader used by the C1 witness. -/
def c1OkLoader : Loader String :=
  { Key := none, Lookup := some fun k => if k = "B" then .ok ["v"] else .ok [] }

/-- Flag set used by the C1 witness. -/
def c1OkFS : FlagSet String := { formal := [c1OkFlag], actual := [] }

/-- Witness for `assign_iff_of_no_error`: an error-free run through a
satisfied condition assigns a value. -/
theorem assign_iff_of_no_error_witness :
    (processFlag c1OkLoader (visitedBy c1OkFS false) c1OkFlag).assigned ≠
      c1OkFlag.assigned :=
  ((assign_iff_of_no_error c1OkLoader c1OkFS false rfl).2 c1OkFlag
      (by simp [c1OkFS])).mpr
    ⟨by decide, ⟨(fun k => if k = "B" then .ok ["v"] else .ok []), ["v"], rfl,
      rfl, by simp⟩, rfl, rfl⟩

/-- C2, counterexample: on the empty flag set the bulk operation of a Loader
without a Lookup function returns no error at all, because the nil check
lives inside the per-flag `setFlag` and the `VisitAll` closure never runs; so
the claim's "for every flag set" is false. -/
theorem nil_lookup_counterexample :
    (SetAll (⟨none, none⟩ : Loader String) ⟨[], []⟩).2 = none := rfl

/-- C2, amended: a bulk operation on a Loader without a Lookup function never
mutates any flag, and it returns the "no lookup configured" error provided at
least one declared flag is actually processed (is neither excluded as
visited under the fill-missing policy nor exempt via `SkipMerge`); on a flag
set with no such flag — in particular the empty one — it returns no
error. -/
theorem nil_lookup_errors {ε : Type} (l : Loader ε) (fs : FlagSet ε)
    (merge : Bool) (hL : l.Lookup = none) :
    (setFlags l fs merge).1 = fs ∧
      ((∃ g ∈ fs.formal, (visitedBy fs merge g || shouldSkip g) = false) →
        setFlags l fs merge = (fs, some .noLookup)) := by
  constructor
  · rw [setFlags_def,
      setFlagsAux_noLookup_preserves l (visitedBy fs merge) hL fs.formal none]
  · intro hex
    rw [setFlags_def,
      setFlagsAux_noLookup l (visitedBy fs merge) hL fs.formal hex]

/-- Flag used by the C2 witness. -/
def c2Flag : Flag String :=
  { name := "N", skipMerge := false, parse := fun _ => none, assigned := [] }

/-- Flag set used by the C2 witness. -/
def c2FS : FlagSet String := { formal := [c2Flag], actual := [] }

/-- Witness for `nil_lookup_errors` on a one-flag set. -/
theorem nil_lookup_errors_witness :
    (setFlags (⟨none, none⟩ : Loader String) c2FS false).1 = c2FS ∧
      setFlags (⟨none, none⟩ : Loader String) c2FS false =
        (c2FS, some .noLookup) :=
  ⟨(nil_lookup_errors (⟨none, none⟩ : Loader String) c2FS false rfl).1,
    (nil_lookup_errors (⟨none, none⟩ : Loader String) c2FS false rfl).2
      ⟨c2Flag, by simp [c2FS], rfl⟩⟩

/-- C6: when the first non-skipped flag whose processing fails is `fv` (all
declared flags before it are skipped or process cleanly), the bulk operation
returns exactly that first error; flags before `fv` keep their processed
outcomes (already-applied assignments are not rolled back), `fv` keeps the
partial outcome `setFlag` produced for it, and every flag after `fv` is left
untouched.  Moreover every `setFlag` error is either the configuration error
or wrapped with the offending flag's name and derived key, and a failing
`Set` call stops further values for that flag: values before the failing one
stay applied, values after it are never applied. -/
theorem first_error_spec {ε : Type} (l : Loader ε) (fs : FlagSet ε)
    (merge : Bool) (pre post : List (Flag ε)) (fv fv' : Flag ε)
    (er : LoadErr ε) (hsplit : fs.formal = pre ++ fv :: post)
    (hpre : ∀ g ∈ pre, (visitedBy fs merge g || shouldSkip g) = true ∨
      (setFlag l g).2 = none)
    (hfv : (visitedBy fs merge fv || shouldSkip fv) = false)
    (hrun : setFlag l fv = (fv', some er)) :
    (setFlags l fs merge).2 = some er ∧
      (setFlags l fs merge).1.formal =
        pre.map (processFlag l (visitedBy fs merge)) ++ fv' :: post ∧
      (er = .noLookup ∨ ∃ e0 : ε,
        er = .lookupErr fv.name (derivedKey l fv.name) e0 ∨
        er = .setErr fv.name (derivedKey l fv.name) e0) ∧
      ∀ (g : Flag ε) (good : List String) (bad : String) (rest : List String)
        (e0 : ε), (∀ v ∈ good, g.parse v = none) → g.parse bad = some e0 →
        setValues g (good ++ bad :: rest) =
          ({ g with assigned := g.assigned ++ good }, some e0) := by
  have hmain : setFlagsAux l (visitedBy fs merge) fs.formal none =
      (pre.map (processFlag l (visitedBy fs merge)) ++ fv' :: post, some er) := by
    rw [hsplit,
      setFlagsAux_append_ok l (visitedBy fs merge) pre (fv :: post) hpre,
      setFlagsAux_cons_run l (visitedBy fs merge) fv post hfv, hrun]
    simp [setFlagsAux_error l (visitedBy fs merge) post er]
  refine ⟨?_, ?_, setFlag_err_shape l fv fv' er hrun,
    fun g good bad rest e0 hg hb => setValues_partial good g bad rest e0 hg hb⟩
  · rw [setFlags_def, hmain]
  · rw [setFlags_def, hmain]

/-- Failing flag used by the C6 witness: value `"bad"` is rejected. -/
def c6Flag : Flag String :=
  { name := "A", skipMerge := false,
    parse := fun v => if v = "bad" then some "boom" else none, assigned := [] }

/-- Later flag used by the C6 witness; it must stay untouched. -/
def c6Post : Flag String :=
  { name := "C", skipMerge := false, parse := fun _ => none, assigned := [] }

/-- Loader used by the C6 witness: key `"A"` yields a good value, then a bad
one, then one that must never be applied. -/
def c6Loader : Loader String :=
  { Key := none,
    Lookup := some fun k => if k = "A" then .ok ["ok1", "bad", "never"] else .ok [] }

/-- Flag set used by the C6 witness. -/
def c6FS : FlagSet String := { formal := [c6Flag, c6Post], actual := [] }

/-- Witness for `first_error_spec`: the Set error on `"bad"` is returned,
wrapped with flag name and key; `"ok1"` stays applied, `"never"` is not, and
the later flag `C` is untouched. -/
theorem first_error_spec_witness :
    (setFlags c6Loader c6FS false).2 = some (.setErr "A" "A" "boom") ∧
      (setFlags c6Loader c6FS false).1.formal =
        [{ c6Flag with assigned := ["ok1"] }, c6Post] := by
  have h := first_error_spec c6Loader c6FS false [] [c6Post] c6Flag
    { c6Flag with assigned := ["ok1"] } (.setErr "A" "A" "boom") rfl
    (by intro g hg; simp at hg) rfl rfl
  exact ⟨h.1, h.2.1.trans rfl⟩

/-- C7: under the fill-missing policy a flag whose name was explicitly
supplied by the caller is left exactly as it was, whatever the lookup would
yield; under the overwrite-all policy a non-exempt flag whose key resolves to
values has all of them applied to it (appended to its record of `Set` calls)
once the flags before it processed cleanly. -/
theorem merge_policy_spec {ε : Type} (l : Loader ε) (fs : FlagSet ε) :
    (∀ (i : Nat) (d : Flag ε),
        visitedBy fs true (fs.formal.getD i d) = true →
        (SetMissing l fs).1.formal.getD i d = fs.formal.getD i d) ∧
      ∀ (pre post : List (Flag ε)) (fv d : Flag ε) (lk : LookupFunc ε)
        (vs : List String),
        fs.formal = pre ++ fv :: post →
        (∀ g ∈ pre, (visitedBy fs false g || shouldSkip g) = true ∨
          (setFlag l g).2 = none) →
        shouldSkip fv = false → l.Lookup = some lk →
        derivedKey l fv.name ≠ "" → lk (derivedKey l fv.name) = .ok vs →
        (∀ v ∈ vs, fv.parse v = none) →
        (SetAll l fs).1.formal.getD pre.length d =
          { fv with assigned := fv.assigned ++ vs } := by
  constructor
  · intro i d h
    show (setFlagsAux l (visitedBy fs true) fs.formal none).1.getD i d = _
    exact setFlagsAux_getD_skipped l (visitedBy fs true) fs.formal none i d
      (by rw [h]; simp)
  · intro pre post fv d lk vs hsplit hpre hskip hL hk hlk hok
    have hfv : (visitedBy fs false fv || shouldSkip fv) = false := by
      simp [visitedBy, hskip]
    have hmain : setFlagsAux l (visitedBy fs false) fs.formal none =
        (pre.map (processFlag l (visitedBy fs false)) ++
          ({ fv with assigned := fv.assigned ++ vs } ::
            (setFlagsAux l (visitedBy fs false) post none).1),
          (setFlagsAux l (visitedBy fs false) post none).2) := by
      rw [hsplit,
        setFlagsAux_append_ok l (visitedBy fs false) pre (fv :: post) hpre,
        setFlagsAux_cons_run l (visitedBy fs false) fv post hfv,
        setFlag_applies l fv lk vs hL hk hlk hok]
    show (setFlagsAux l (visitedBy fs false) fs.formal none).1.getD
      pre.length d = _
    rw [hmain]
    have hlen : pre.length =
        (pre.map (processFlag l (visitedBy fs false))).length := by simp
    rw [hlen]
    exact getD_append_length _ _ _ d

/-- Flag used by the C7 witness: explicitly set on the command line with
value `"cli"`. -/
def c7Flag : Flag String :=
  { name := "V", skipMerge := false, parse := fun _ => none,
    assigned := ["cli"] }

/-- Loader used by the C7 witness: every key resolves to `"env"`. -/
def c7Loader : Loader String :=
  { Key := none, Lookup := some fun _ => .ok ["env"] }

/-- Flag set used by the C7 witness: flag `V` was explicitly supplied. -/
def c7FS : FlagSet String := { formal := [c7Flag], actual := ["V"] }

/-- Witness for `merge_policy_spec`: `SetMissing` keeps the explicitly set
flag untouched although the lookup yields a different value, while `SetAll`
applies the looked-up value on top of the prior one. -/
theorem merge_policy_spec_witness :
    (SetMissing c7Loader c7FS).1.formal.getD 0 c7Flag = c7Flag ∧
      (SetAll c7Loader c7FS).1.formal.getD 0 c7Flag =
        { c7Flag with assigned := ["cli", "env"] } := by
  refine ⟨(merge_policy_spec c7Loader c7FS).1 0 c7Flag rfl, ?_⟩
  have h := (merge_policy_spec c7Loader c7FS).2 [] [] c7Flag c7Flag
    (fun _ => .ok ["env"]) ["env"] rfl (by intro g hg; simp at hg) rfl rfl
    (by decide) rfl (fun v _ => rfl)
  exact h.trans rfl

/-- C8: a flag whose value reports the `SkipMerge` capability as true is left
untouched by the bulk operations under both policies, while the single-name
entry point `SetOne` ignores the capability: it still derives the key, looks
it up and applies the values to the flag. -/
theorem skipMerge_spec {ε : Type} (l : Loader ε) (fs : FlagSet ε) :
    (∀ (merge : Bool) (i : Nat) (d : Flag ε),
        shouldSkip (fs.formal.getD i d) = true →
        (setFlags l fs merge).1.formal.getD i d = fs.formal.getD i d) ∧
      ∀ (nm : String) (fv : Flag ε) (lk : LookupFunc ε) (vs : List String),
        fs.formal.find? (fun g => g.name == nm) = some fv →
        l.Lookup = some lk → derivedKey l fv.name ≠ "" →
        lk (derivedKey l fv.name) = .ok vs →
        (∀ v ∈ vs, fv.parse v = none) →
        SetOne l fs nm =
          ({ fs with formal := fs.formal.map fun g =>
              if g.name == nm then { fv with assigned := fv.assigned ++ vs }
              else g }, none) := by
  constructor
  · intro merge i d h
    show (setFlagsAux l (visitedBy fs merge) fs.formal none).1.getD i d = _
    exact setFlagsAux_getD_skipped l (visitedBy fs merge) fs.formal none i d
      (by rw [h]; simp)
  · intro nm fv lk vs hfind hL hk hlk hok
    unfold SetOne
    simp only [hfind]
    rw [setFlag_applies l fv lk vs hL hk hlk hok]

/-- Flag used by the C8 witness: it opts out of merging. -/
def c8Flag : Flag String :=
  { name := "S", skipMerge := true, parse := fun _ => none, assigned := [] }

/-- Loader used by the C8 witness. -/
def c8Loader : Loader String :=
  { Key := none, Lookup := some fun _ => .ok ["env"] }

/-- Flag set used by the C8 witness. -/
def c8FS : FlagSet String := { formal := [c8Flag], actual := [] }

/-- Witness for `skipMerge_spec`: both bulk operations leave the opted-out
flag untouched, yet `SetOne` assigns the looked-up value to it. -/
theorem skipMerge_spec_witness :
    (SetAll c8Loader c8FS).1.formal.getD 0 c8Flag = c8Flag ∧
      (SetMissing c8Loader c8FS).1.formal.getD 0 c8Flag = c8Flag ∧
      SetOne c8Loader c8FS "S" =
        ({ c8FS with formal := [{ c8Flag with assigned := ["env"] }] }, none) := by
  refine ⟨(skipMerge_spec c8Loader c8FS).1 false 0 c8Flag rfl,
    (skipMerge_spec c8Loader c8FS).1 true 0 c8Flag rfl, ?_⟩
  have h := (skipMerge_spec c8Loader c8FS).2 "S" c8Flag (fun _ => .ok ["env"])
    ["env"] rfl rfl (by decide) rfl (fun v _ => rfl)
  exact h.trans rfl

end Flagenv
